import Mathlib

/-!
# Verification of the IVoiceCue LED/mixer synchronization engine

Shallow embedding of `src/IVoiceCue.py`:

* Python floats are embedded as rationals (`ℚ`); Python `int(...)` (truncation
  toward zero) is `pyInt`.
* Mixer parameter values are either booleans or numbers.  Python treats `bool`
  as a numeric subtype (`True == 1.0`), so `Value` carries both constructors and
  `Value.toRat` / `pyEq` / `truthy` reproduce Python's numeric equality and
  truthiness.
* The mutable state of `ParameterObserver` (`monitored_params`, the Voicemeeter
  mixer, the LED panel) is an explicit `World` record; the dict
  `monitored_params` is an insertion-ordered association list, matching the
  iteration order of a Python dict.
* Fallible external calls (`getattr`/`setattr` on the mixer and
  `sdk.set_led_colors`) are driven by an `Env` oracle telling which calls
  succeed during one operation.  A `False` outcome for a mixer call models the
  call raising; the Python code has no `try` around those, so the enclosing
  operation aborts (second component of the result is `false`).  A `False`
  outcome for an LED call models `sdk.set_led_colors` raising, which
  `KeyLightingController.set_color` catches and logs: the LED keeps its old
  color and the caller continues.
-/

set_option maxHeartbeats 1000000

/-- Truncation toward zero, Python's `int(...)` on a real number. -/
def pyInt (q : ℚ) : ℤ :=
  if q < 0 then -(Int.floor (-q)) else Int.floor q

abbrev RGB := ℤ × ℤ × ℤ

/-- Constant `LED_ON_COLOR = (0, 255, 0)`: green for ON (non-gain). -/
def LED_ON_COLOR : RGB := (0, 255, 0)

/-- Constant `LED_OFF_COLOR = (255, 0, 0)`: red for OFF (non-gain). -/
def LED_OFF_COLOR : RGB := (255, 0, 0)

/-- Constant `BLUE = (0, 0, 255)`: shown when a gain is beyond the origin side. -/
def BLUE : RGB := (0, 0, 255)

/-- Constant `GREEN = (0, 255, 0)`: shown exactly at the origin. -/
def GREEN : RGB := (0, 255, 0)

/-- Constant `RED = (255, 0, 0)`: shown at (or beyond) the end. -/
def RED : RGB := (255, 0, 0)

/-- Helper `clamp(value, min_val, max_val) = max(min_val, min(value, max_val))`. -/
def clamp (value min_val max_val : ℚ) : ℚ :=
  max min_val (min value max_val)

/-- Function `color_for_gain(value, origin, end)` from `IVoiceCue.py`: origin is 100%
green, end is 100% red, with a reversed-range branch when `origin > end`. -/
def color_for_gain (value origin end_ : ℚ) : RGB :=
  if origin = end_ then RED
  else if origin < end_ then
    -- forward range (e.g. 0.0 -> 0.40)
    if value < origin then BLUE
    else if value > end_ then RED
    else
      let t := clamp ((value - origin) / (end_ - origin)) 0 1
      (pyInt (255 * t), pyInt (255 * (1 - t)), 0)
  else
    -- reversed range (e.g. 0.0 -> -30.0)
    if value < end_ then RED
    else if value > origin then BLUE
    else
      let t := clamp ((value - origin) / (end_ - origin)) 0 1
      (pyInt (255 * t), pyInt (255 * (1 - t)), 0)

/-- A value held by a mixer parameter: a Python bool or a Python float. -/
inductive Value where
  | b (x : Bool)
  | n (x : ℚ)
deriving DecidableEq, Repr

/-- Python's numeric reading of a value (`bool` is an `int` subtype:
`True == 1`, `False == 0`). -/
def Value.toRat : Value → ℚ
  | .b x => if x then 1 else 0
  | .n q => q

/-- Python truthiness (`bool(v)`): a number is truthy iff it is nonzero. -/
def truthy : Value → Bool
  | .b x => x
  | .n q => decide (q ≠ 0)

/-- Python `==` between mixer values (numeric comparison, since `bool` is a
numeric type: `True == 1.0` holds). -/
def pyEq (a c : Value) : Bool :=
  decide (a.toRat = c.toRat)

-- The stateful engine ------------------------------------------------------

/-- Outcome oracle for the external calls made during one operation:
`readOk`/`writeOk` tell whether `getattr`/`setattr` on
`vm.strip[s_idx].p_name` succeeds (a failure raises, uncaught by the
observer), `ledOk` tells whether `sdk.set_led_colors` for a given LED id
succeeds (a failure is caught inside `set_color`). -/
structure Env where
  readOk : ℕ → String → Bool
  writeOk : ℕ → String → Bool
  ledOk : ℕ → Bool

/-- One entry of `monitored_params`:
`(s_idx, p_name, current_val, led_id, is_gain, rng)`. -/
structure Entry where
  s_idx : ℕ
  p_name : String
  value : Value
  led_id : ℕ
  is_gain : Bool
  rng : Option (ℚ × ℚ)
deriving DecidableEq, Repr

abbrev Mixer := ℕ × String → Value

/-- The observable state: the external mixer, the color last pushed to each
LED (`none` = never pushed), and the `monitored_params` dict as an
insertion-ordered association list. -/
structure World where
  mixer : Mixer
  leds : ℕ → Option RGB
  params : List (ℕ × Entry)

/-- Dict lookup `monitored_params[vk]` (first entry with the key; a Python
dict has unique keys). -/
def findEntry (vk : ℕ) : List (ℕ × Entry) → Option Entry
  | [] => none
  | p :: rest => if p.1 = vk then some p.2 else findEntry vk rest

/-- Dict update `monitored_params[vk] = (s_idx, p_name, new_val, led_id,
is_gain, rng)`: the tuple is rebuilt from the entry's own fields with only the
value component replaced. -/
def setValue (vk : ℕ) (v : Value) : List (ℕ × Entry) → List (ℕ × Entry) :=
  List.map (fun p => if p.1 = vk then (p.1, { p.2 with value := v }) else p)

/-- The one guarded external call: `sdk.set_led_colors` inside
`KeyLightingController.set_color`.  On failure the exception is caught and the
LED keeps its old color. -/
def set_led (env : Env) (leds : ℕ → Option RGB) (led_id : ℕ) (c : RGB) :
    ℕ → Option RGB :=
  if env.ledOk led_id then fun l => if l = led_id then some c else leds l
  else leds

/-- Method `KeyLightingController.set_color(led_id, state=..., gain=...,
gain_range=...)`: gain plus a 2-element range wins, else a boolean state, else
the default `LED_OFF_COLOR`. -/
def set_color (env : Env) (leds : ℕ → Option RGB) (led_id : ℕ)
    (state : Option Value) (gain : Option Value) (gain_range : Option (ℚ × ℚ)) :
    ℕ → Option RGB :=
  let color : RGB :=
    match gain, gain_range with
    | some g, some (origin, end_) => color_for_gain g.toRat origin end_
    | _, _ =>
      match state with
      | some s => if truthy s then LED_ON_COLOR else LED_OFF_COLOR
      | none => LED_OFF_COLOR
  set_led env leds led_id color

/-- Method `ParameterObserver.toggle_strip(vk)`.  Unknown keys return at once.  The
`setattr` happens before the LED update and the dict update; if it raises
(`writeOk = false`) the whole operation aborts with no state change and the
second component is `false`. -/
def toggle_strip (env : Env) (vk : ℕ) (w : World) : World × Bool :=
  match findEntry vk w.params with
  | none => (w, true)
  | some e =>
    match e.is_gain, e.rng with
    | true, some (origin, end_) =>
      -- if current == end => go origin, else go end
      let new_val : ℚ := if e.value.toRat = end_ then origin else end_
      if env.writeOk e.s_idx e.p_name then
        ({ mixer := fun loc =>
             if loc = (e.s_idx, e.p_name) then Value.n new_val else w.mixer loc,
           leds := set_color env w.leds e.led_id none (some (Value.n new_val))
             (some (origin, end_)),
           params := setValue vk (Value.n new_val) w.params }, true)
      else (w, false)
    | _, _ =>
      -- non-gain => boolean toggle
      let new_val : Bool := !(truthy e.value)
      if env.writeOk e.s_idx e.p_name then
        ({ mixer := fun loc =>
             if loc = (e.s_idx, e.p_name) then Value.b new_val else w.mixer loc,
           leds := set_color env w.leds e.led_id (some (Value.b new_val)) none none,
           params := setValue vk (Value.b new_val) w.params }, true)
      else (w, false)

/-- The loop body of `ParameterObserver.check_updates`, walking the dict in
insertion order.  A failing `getattr` (`readOk = false`) raises: the sweep
stops there, the remaining entries are left untouched, and the `Bool`
component is `false`. -/
def check_pass (env : Env) (mixer : Mixer) :
    List (ℕ × Entry) → (ℕ → Option RGB) →
    List (ℕ × Entry) × (ℕ → Option RGB) × Bool
  | [], leds => ([], leds, true)
  | (vk, e) :: rest, leds =>
    if env.readOk e.s_idx e.p_name then
      let cur := mixer (e.s_idx, e.p_name)
      if pyEq cur e.value then
        let r := check_pass env mixer rest leds
        ((vk, e) :: r.1, r.2)
      else
        match e.is_gain, e.rng with
        | true, some (origin, end_) =>
          let leds1 := set_color env leds e.led_id none (some cur)
            (some (origin, end_))
          let r := check_pass env mixer rest leds1
          ((vk, { e with value := cur }) :: r.1, r.2)
        | _, _ =>
          let leds1 := set_color env leds e.led_id (some cur) none none
          let r := check_pass env mixer rest leds1
          ((vk, { e with value := cur }) :: r.1, r.2)
    else ((vk, e) :: rest, leds, false)

/-- Method `ParameterObserver.check_updates()`. -/
def check_updates (env : Env) (w : World) : World × Bool :=
  let r := check_pass env w.mixer w.params w.leds
  ({ w with params := r.1, leds := r.2.1 }, r.2.2)

/-- The loop body of `ParameterObserver.initialize_leds`, pushing the color of
every entry's stored value.  `set_color` never raises. -/
def init_pass (env : Env) : List (ℕ × Entry) → (ℕ → Option RGB) → ℕ → Option RGB
  | [], leds => leds
  | (_, e) :: rest, leds =>
    let leds1 :=
      match e.is_gain, e.rng with
      | true, some (origin, end_) =>
        set_color env leds e.led_id none (some e.value) (some (origin, end_))
      | _, _ => set_color env leds e.led_id (some e.value) none none
    init_pass env rest leds1

/-- Method `ParameterObserver.initialize_leds()`. -/
def initialize_leds (env : Env) (w : World) : World :=
  { w with leds := init_pass env w.params w.leds }

/-- Table `STRIP_CONFIG`: `key -> (strip_index, param_name, led_id, is_gain,
(origin_val, end_val))`, in source order. -/
def STRIP_CONFIG : List (ℕ × ℕ × String × ℕ × Bool × Option (ℚ × ℚ)) :=
  [ (97,  0, "B1", 116, false, none),
    (98,  0, "B2", 117, false, none),
    (99,  0, "B3", 118, false, none),
    (100, 5, "A1", 113, false, none),
    (101, 6, "A1", 114, false, none),
    (102, 7, "A1", 115, false, none),
    (104, 5, "gain", 110, true, some (0.0, -30.0)),
    (103, 6, "gain", 109, true, some (0.0, 0.40)),
    (105, 6, "A3", 111, false, none) ]

/-- One entry of `ParameterObserver.__init__`: the current external value is
read (`getattr`) and stored as the entry's snapshot value. -/
def mkEntry (mixer : Mixer) (cfg : ℕ × String × ℕ × Bool × Option (ℚ × ℚ)) :
    Entry :=
  { s_idx := cfg.1, p_name := cfg.2.1, value := mixer (cfg.1, cfg.2.1),
    led_id := cfg.2.2.1, is_gain := cfg.2.2.2.1, rng := cfg.2.2.2.2 }

/-- Dict `monitored_params` as built by `ParameterObserver.__init__` (startup reads
are assumed to succeed: a startup failure is fatal and no engine runs). -/
def init_params (mixer : Mixer) : List (ℕ × Entry) :=
  STRIP_CONFIG.map (fun p => (p.1, mkEntry mixer p.2))

/-- The state right after `ParameterObserver(vm, lighting)` plus
`observer.initialize_leds()`. -/
def initWorld (env : Env) (mixer : Mixer) : World :=
  initialize_leds env { mixer := mixer, leds := fun _ => none,
                        params := init_params mixer }

/-- One event of a session: a key release routed to `toggle_strip`, one
`check_updates` sweep of the poll loop, or an out-of-band change of the mixer
made through the Voicemeeter UI (it touches only the mixer). -/
inductive Op where
  | toggle (env : Env) (vk : ℕ)
  | reconcile (env : Env)
  | external (f : Mixer → Mixer)

/-- Apply one event to the world (an operation that raises still leaves the
state it had produced so far, which for this code is the unchanged state). -/
def step : Op → World → World
  | .toggle env vk, w => (toggle_strip env vk w).1
  | .reconcile env, w => (check_updates env w).1
  | .external f, w => { w with mixer := f w.mixer }

/-- Run a sequence of events. -/
def run (ops : List Op) (w : World) : World :=
  ops.foldl (fun w op => step op w) w

-- Specification-side definitions -------------------------------------------

/-- The color the spec's `ColorMapper` assigns to an entry's stored snapshot
value: `colorForGain` on the reference pair for ContinuousGain entries,
`colorForBoolean` (the ON/OFF colors) otherwise — exactly what the engine
passes to `set_color` for that entry. -/
def entryColor (e : Entry) : RGB :=
  match e.is_gain, e.rng with
  | true, some (origin, end_) => color_for_gain e.value.toRat origin end_
  | _, _ => if truthy e.value then LED_ON_COLOR else LED_OFF_COLOR

/-- The C1 invariant: every tracked entry's LED shows exactly the
`ColorMapper` color of its stored snapshot value. -/
def LedInv (w : World) : Prop :=
  ∀ p ∈ w.params, w.leds p.2.led_id = some (entryColor p.2)

/-- All three channels of a color are integers in `[0, 255]`. -/
def InRange (c : RGB) : Prop :=
  0 ≤ c.1 ∧ c.1 ≤ 255 ∧ 0 ≤ c.2.1 ∧ c.2.1 ≤ 255 ∧ 0 ≤ c.2.2 ∧ c.2.2 ≤ 255

/-- The key list of `monitored_params`. -/
def keysOf (l : List (ℕ × Entry)) : List ℕ := l.map (fun p => p.1)

/-- The LED-id list of `monitored_params`. -/
def ledsOf (l : List (ℕ × Entry)) : List ℕ := l.map (fun p => p.2.led_id)

/-- The immutable part of an entry (everything but the snapshot value),
together with its key. -/
def sk (p : ℕ × Entry) : ℕ × ℕ × String × ℕ × Bool × Option (ℚ × ℚ) :=
  (p.1, p.2.s_idx, p.2.p_name, p.2.led_id, p.2.is_gain, p.2.rng)

/-- Well-formedness: trigger keys are unique (they are dict keys) and the
configured LED ids are pairwise distinct (true of `STRIP_CONFIG`). -/
def WF (w : World) : Prop :=
  (keysOf w.params).Nodup ∧ (ledsOf w.params).Nodup

/-- An oracle under which every LED write succeeds. -/
def LedAllOk (env : Env) : Prop := ∀ l, env.ledOk l = true

/-- An oracle under which every mixer read succeeds. -/
def ReadAllOk (env : Env) : Prop := ∀ s p, env.readOk s p = true

/-- Events whose LED writes all succeed (out-of-band mixer changes touch no
LED). -/
def OpLedOk : Op → Prop
  | .toggle env _ => LedAllOk env
  | .reconcile env => LedAllOk env
  | .external _ => True

-- Concrete scenario used by the witnesses and counterexamples --------------

/-- A mixer whose parameters all read `0.0`. -/
def m0 : Mixer := fun _ => Value.n 0

/-- The fully reliable environment. -/
def envAll : Env :=
  { readOk := fun _ _ => true, writeOk := fun _ _ => true, ledOk := fun _ => true }

/-- An environment whose LED transport is down (every `sdk.set_led_colors`
raises and is caught inside `set_color`). -/
def envNoLed : Env :=
  { readOk := fun _ _ => true, writeOk := fun _ _ => true, ledOk := fun _ => false }

/-- An environment where reading `Strip[0].B1` (the first binding, key 97)
raises, and everything else works. -/
def envBadRead : Env :=
  { readOk := fun s p => if s = 0 ∧ p = "B1" then false else true,
    writeOk := fun _ _ => true, ledOk := fun _ => true }

/-- The initialized world over the all-zero mixer. -/
def w0ex : World := initWorld envAll m0

/-- World `w0ex` after an out-of-band Voicemeeter change setting `Strip[0].B2`
(the binding of key 98) to `5.0`. -/
def w1ex : World :=
  run [Op.external (fun m loc => if loc = (0, "B2") then Value.n 5 else m loc)] w0ex

-- Basic facts about the pure helpers -------------------------------------

theorem pyInt_of_nonneg (q : ℚ) (h : 0 ≤ q) : pyInt q = Int.floor q := by
  simp [pyInt, not_lt.mpr h]

theorem clamp_of_mem (t : ℚ) (h0 : 0 ≤ t) (h1 : t ≤ 1) : clamp t 0 1 = t := by
  simp [clamp, min_eq_left h1, max_eq_right h0]

theorem clamp_mem_left (r : ℚ) : 0 ≤ clamp r 0 1 := le_max_left _ _

theorem clamp_mem_right (r : ℚ) : clamp r 0 1 ≤ 1 :=
  max_le (by norm_num) (min_le_right _ _)

theorem pyInt_range (q : ℚ) (h0 : 0 ≤ q) (h255 : q ≤ 255) :
    0 ≤ pyInt q ∧ pyInt q ≤ 255 := by
  rw [pyInt_of_nonneg q h0]
  refine ⟨Int.floor_nonneg.mpr h0, ?_⟩
  have h := Int.floor_le_floor (α := ℚ) h255
  have h2 : Int.floor ((255 : ℚ)) = (255 : ℤ) := by
    norm_num
  omega

/-- On the open interior of the reference range both branches of
`color_for_gain` compute the unclamped ratio formula. -/
theorem color_for_gain_interior (value origin end_ : ℚ) (hne : origin ≠ end_)
    (hlo : min origin end_ < value) (hhi : value < max origin end_) :
    color_for_gain value origin end_ =
      (pyInt (255 * ((value - origin) / (end_ - origin))),
       pyInt (255 * (1 - (value - origin) / (end_ - origin))), 0) := by
  rcases lt_or_gt_of_ne hne with h | h
  · rw [min_eq_left h.le] at hlo
    rw [max_eq_right h.le] at hhi
    have hd : (0 : ℚ) < end_ - origin := sub_pos.mpr h
    have h0 : 0 ≤ (value - origin) / (end_ - origin) :=
      div_nonneg (sub_nonneg.mpr hlo.le) hd.le
    have h1 : (value - origin) / (end_ - origin) ≤ 1 := by
      rw [div_le_one hd]
      exact sub_le_sub_right hhi.le origin
    simp only [color_for_gain, if_neg hne, if_pos h, if_neg (not_lt.mpr hlo.le),
      if_neg (not_lt.mpr hhi.le)]
    rw [clamp_of_mem _ h0 h1]
  · rw [min_eq_right h.le] at hlo
    rw [max_eq_left h.le] at hhi
    have hrw : (value - origin) / (end_ - origin) =
        (origin - value) / (origin - end_) := by
      rw [← neg_div_neg_eq]
      ring_nf
    have hd : (0 : ℚ) < origin - end_ := sub_pos.mpr h
    have h0 : 0 ≤ (value - origin) / (end_ - origin) := by
      rw [hrw]
      exact div_nonneg (sub_nonneg.mpr hhi.le) hd.le
    have h1 : (value - origin) / (end_ - origin) ≤ 1 := by
      rw [hrw, div_le_one hd]
      exact sub_le_sub_left hlo.le origin
    simp only [color_for_gain, if_neg hne, if_neg (not_lt.mpr h.le),
      if_neg (not_lt.mpr hlo.le), if_neg (not_lt.mpr hhi.le)]
    rw [clamp_of_mem _ h0 h1]

-- C4 -----------------------------------------------------------------------

/-- C4: for `origin ≠ end` and any `value` strictly between the two
endpoints, `color_for_gain` returns
`(int(255*ratio), int(255*(1-ratio)), 0)` with
`ratio = (value - origin)/(end - origin)`; that ratio is `0` at `origin` and
`1` at `end` in both orderings (the ascending and descending branches compute
the same formula), and the blue channel of the interpolated color is `0`. -/
theorem iVoiceCue_gain_interp (value origin end_ : ℚ) (hne : origin ≠ end_)
    (hlo : min origin end_ < value) (hhi : value < max origin end_) :
    color_for_gain value origin end_ =
      (pyInt (255 * ((value - origin) / (end_ - origin))),
       pyInt (255 * (1 - (value - origin) / (end_ - origin))), 0) ∧
    (origin - origin) / (end_ - origin) = 0 ∧
    (end_ - origin) / (end_ - origin) = 1 ∧
    (color_for_gain value origin end_).2.2 = 0 := by
  have h := color_for_gain_interior value origin end_ hne hlo hhi
  refine ⟨h, by simp, div_self (sub_ne_zero.mpr (Ne.symm hne)), ?_⟩
  rw [h]

theorem iVoiceCue_gain_interp_witness :
    ((0 : ℚ) ≠ -30 ∧ min (0 : ℚ) (-30) < -15 ∧ (-15 : ℚ) < max 0 (-30)) ∧
    (color_for_gain (-15) 0 (-30) =
      (pyInt (255 * (((-15) - 0) / ((-30) - 0))),
       pyInt (255 * (1 - ((-15) - 0) / ((-30) - 0))), 0) ∧
    ((0 : ℚ) - 0) / ((-30) - 0) = 0 ∧
    ((-30 : ℚ) - 0) / ((-30) - 0) = 1 ∧
    (color_for_gain (-15) 0 (-30)).2.2 = 0) :=
  ⟨⟨by norm_num, by norm_num, by norm_num⟩,
    iVoiceCue_gain_interp (-15) 0 (-30) (by norm_num) (by norm_num) (by norm_num)⟩

-- C5 -----------------------------------------------------------------------

/-- C5: for every reference pair with `origin ≠ end`, the gain color at
`origin` is the fixed origin color `GREEN = (0,255,0)` and at `end` the fixed
end color `RED = (255,0,0)`, in both orderings. -/
theorem iVoiceCue_gain_endpoints (origin end_ : ℚ) (hne : origin ≠ end_) :
    color_for_gain origin origin end_ = GREEN ∧
    color_for_gain end_ origin end_ = RED := by
  have hself : (end_ - origin) / (end_ - origin) = 1 :=
    div_self (sub_ne_zero.mpr (Ne.symm hne))
  rcases lt_or_gt_of_ne hne with h | h
  · constructor
    · simp only [color_for_gain, if_neg hne, if_pos h, if_neg (lt_irrefl origin),
        if_neg (not_lt.mpr h.le)]
      rw [sub_self, zero_div, clamp_of_mem 0 le_rfl zero_le_one]
      simp [pyInt, GREEN]
    · simp only [color_for_gain, if_neg hne, if_pos h, if_neg (not_lt.mpr h.le),
        if_neg (lt_irrefl end_)]
      rw [hself, clamp_of_mem 1 zero_le_one le_rfl]
      simp [pyInt, RED]
  · constructor
    · simp only [color_for_gain, if_neg hne, if_neg (not_lt.mpr h.le),
        if_neg (not_lt.mpr h.le), if_neg (lt_irrefl origin)]
      rw [sub_self, zero_div, clamp_of_mem 0 le_rfl zero_le_one]
      simp [pyInt, GREEN]
    · simp only [color_for_gain, if_neg hne, if_neg (not_lt.mpr h.le),
        if_neg (lt_irrefl end_), if_neg (not_lt.mpr h.le)]
      rw [hself, clamp_of_mem 1 zero_le_one le_rfl]
      simp [pyInt, RED]

theorem iVoiceCue_gain_endpoints_witness :
    ((0 : ℚ) ≠ -30) ∧
    (color_for_gain 0 0 (-30) = GREEN ∧ color_for_gain (-30) 0 (-30) = RED) :=
  ⟨by norm_num, iVoiceCue_gain_endpoints 0 (-30) (by norm_num)⟩

-- C6 -----------------------------------------------------------------------

/-- C6: a value outside the closed reference interval on the origin side maps
to the fixed below-range color `BLUE`, outside on the end side to the fixed
end color `RED`; concretely `color_for_gain(-40, 0, -30) = RED`,
`color_for_gain(5, 0, -30) = BLUE`, and `color_for_gain(-15, 0, -30)` is the
50% interpolation `(127, 127, 0)` (each channel is 127-or-128 as claimed). -/
theorem iVoiceCue_gain_out_of_range (value origin end_ : ℚ)
    (hne : origin ≠ end_) :
    ((origin < end_ ∧ value < origin) ∨ (end_ < origin ∧ origin < value) →
      color_for_gain value origin end_ = BLUE) ∧
    ((origin < end_ ∧ end_ < value) ∨ (end_ < origin ∧ value < end_) →
      color_for_gain value origin end_ = RED) ∧
    color_for_gain (-40) 0 (-30) = RED ∧
    color_for_gain 5 0 (-30) = BLUE ∧
    color_for_gain (-15) 0 (-30) = (127, 127, 0) := by
  refine ⟨?_, ?_, ?_, ?_, ?_⟩
  · rintro (⟨h, hv⟩ | ⟨h, hv⟩)
    · simp only [color_for_gain, if_neg hne, if_pos h, if_pos hv]
    · have h1 : ¬ value < end_ := not_lt.mpr (lt_trans h hv).le
      simp only [color_for_gain, if_neg hne, if_neg (not_lt.mpr h.le),
        if_neg h1, if_pos hv]
  · rintro (⟨h, hv⟩ | ⟨h, hv⟩)
    · have h1 : ¬ value < origin := not_lt.mpr (lt_trans h hv).le
      simp only [color_for_gain, if_neg hne, if_pos h, if_neg h1, if_pos hv]
    · simp only [color_for_gain, if_neg hne, if_neg (not_lt.mpr h.le),
      if_pos hv]
  · norm_num [color_for_gain]
  · norm_num [color_for_gain]
  · rw [color_for_gain_interior (-15) 0 (-30) (by norm_num) (by norm_num)
      (by norm_num)]
    norm_num [pyInt]

theorem iVoiceCue_gain_out_of_range_witness :
    ((0 : ℚ) ≠ -30 ∧ ((-30 : ℚ) < 0 ∧ (0 : ℚ) < 5)) ∧
    color_for_gain 5 0 (-30) = BLUE :=
  ⟨⟨by norm_num, by norm_num, by norm_num⟩,
    (iVoiceCue_gain_out_of_range 5 0 (-30) (by norm_num)).1
      (Or.inr ⟨by norm_num, by norm_num⟩)⟩

-- C7 -----------------------------------------------------------------------

theorem interp_channels (r : ℚ) :
    InRange (pyInt (255 * clamp r 0 1), pyInt (255 * (1 - clamp r 0 1)), 0) := by
  have h0 := clamp_mem_left r
  have h1 := clamp_mem_right r
  obtain ⟨a0, a1⟩ := pyInt_range (255 * clamp r 0 1)
    (mul_nonneg (by norm_num) h0)
    (by nlinarith)
  obtain ⟨b0, b1⟩ := pyInt_range (255 * (1 - clamp r 0 1))
    (mul_nonneg (by norm_num) (by linarith))
    (by nlinarith)
  exact ⟨a0, a1, b0, b1, le_rfl, by norm_num⟩

theorem color_channels (value origin end_ : ℚ) :
    InRange (color_for_gain value origin end_) := by
  unfold color_for_gain
  split_ifs <;>
    first
      | exact interp_channels _
      | norm_num [InRange, RED, BLUE]

/-- C7: `color_for_gain` is total on every rational triple: the degenerate
range `origin = end` short-circuits to the fixed end color `RED` before any
division, and every result has integer channels in `[0, 255]`. -/
theorem iVoiceCue_gain_total (value origin end_ : ℚ) :
    (origin = end_ → color_for_gain value origin end_ = RED) ∧
    InRange (color_for_gain value origin end_) := by
  refine ⟨fun h => ?_, color_channels value origin end_⟩
  simp [color_for_gain, h]

theorem iVoiceCue_gain_total_witness :
    color_for_gain 2 2 2 = RED ∧ InRange (color_for_gain 5 0 (-30)) :=
  ⟨(iVoiceCue_gain_total 2 2 2).1 rfl, (iVoiceCue_gain_total 5 0 (-30)).2⟩

-- Association-list (dict) lemmas -------------------------------------------

theorem setValue_nil (vk : ℕ) (v : Value) : setValue vk v [] = [] := rfl

theorem setValue_cons (vk : ℕ) (v : Value) (p : ℕ × Entry)
    (rest : List (ℕ × Entry)) :
    setValue vk v (p :: rest) =
      (if p.1 = vk then (p.1, { p.2 with value := v }) else p) ::
        setValue vk v rest := rfl

theorem findEntry_mem {vk : ℕ} {l : List (ℕ × Entry)} {e : Entry}
    (h : findEntry vk l = some e) : (vk, e) ∈ l := by
  induction l with
  | nil => simp [findEntry] at h
  | cons p rest ih =>
    by_cases hk : p.1 = vk
    · simp only [findEntry, if_pos hk] at h
      have he : e = p.2 := (Option.some_inj.mp h).symm
      subst he
      rw [← hk]
      exact List.mem_cons_self _ _
    · simp only [findEntry, if_neg hk] at h
      exact List.mem_cons_of_mem _ (ih h)

theorem findEntry_setValue_self {vk : ℕ} {l : List (ℕ × Entry)} {e : Entry}
    (v : Value) (h : findEntry vk l = some e) :
    findEntry vk (setValue vk v l) = some { e with value := v } := by
  induction l with
  | nil => simp [findEntry] at h
  | cons p rest ih =>
    rw [setValue_cons]
    by_cases hk : p.1 = vk
    · simp only [findEntry, if_pos hk] at h
      simp [findEntry, hk, ← Option.some_inj.mp h]
    · simp only [findEntry, if_neg hk] at h
      simpa [findEntry, hk] using ih h

theorem findEntry_setValue_ne {k vk : ℕ} (hne : k ≠ vk) (v : Value)
    (l : List (ℕ × Entry)) :
    findEntry k (setValue vk v l) = findEntry k l := by
  induction l with
  | nil => rfl
  | cons p rest ih =>
    rw [setValue_cons]
    by_cases hk : p.1 = vk
    · simp [findEntry, hk, hne, Ne.symm hne, ih]
    · by_cases hk2 : p.1 = k <;> simp [findEntry, hk, hk2, hne, Ne.symm hne, ih]

theorem sk_setValue (vk : ℕ) (v : Value) (l : List (ℕ × Entry)) :
    (setValue vk v l).map sk = l.map sk := by
  induction l with
  | nil => rfl
  | cons p rest ih =>
    rw [setValue_cons]
    by_cases hk : p.1 = vk <;> simp [sk, hk, ih]

theorem keysOf_eq_sk (l : List (ℕ × Entry)) :
    keysOf l = (l.map sk).map (fun t => t.1) := by
  simp [keysOf, sk, List.map_map]

theorem ledsOf_eq_sk (l : List (ℕ × Entry)) :
    ledsOf l = (l.map sk).map (fun t => t.2.2.2.1) := by
  simp [ledsOf, sk, List.map_map]

theorem keysOf_setValue (vk : ℕ) (v : Value) (l : List (ℕ × Entry)) :
    keysOf (setValue vk v l) = keysOf l := by
  rw [keysOf_eq_sk, keysOf_eq_sk, sk_setValue]

theorem ledsOf_setValue (vk : ℕ) (v : Value) (l : List (ℕ × Entry)) :
    ledsOf (setValue vk v l) = ledsOf l := by
  rw [ledsOf_eq_sk, ledsOf_eq_sk, sk_setValue]

theorem nodup_map_ne {α β : Type} {f : α → β} {l : List α}
    (h : (l.map f).Nodup) {a c : α} (ha : a ∈ l) (hc : c ∈ l) (hne : a ≠ c) :
    f a ≠ f c := by
  induction l with
  | nil => cases ha
  | cons x rest ih =>
    simp only [List.map_cons, List.nodup_cons, List.mem_map] at h
    rcases List.mem_cons.mp ha with ha1 | ha1 <;>
      rcases List.mem_cons.mp hc with hc1 | hc1
    · exact absurd (ha1.trans hc1.symm) hne
    · subst ha1
      exact fun hfc => h.1 ⟨c, hc1, hfc.symm⟩
    · subst hc1
      exact fun hfc => h.1 ⟨a, ha1, hfc⟩
    · exact ih h.2 ha1 hc1

theorem key_unique {l : List (ℕ × Entry)} (h : (keysOf l).Nodup)
    {vk : ℕ} {e : Entry} (he : (vk, e) ∈ l) {p : ℕ × Entry} (hp : p ∈ l)
    (hpk : p.1 = vk) : p = (vk, e) := by
  have h' : (l.map (fun p => p.1)).Nodup := h
  by_contra hne
  exact nodup_map_ne h' hp he hne hpk

theorem led_ne_of_nodup {l : List (ℕ × Entry)} (h : (ledsOf l).Nodup)
    {a c : ℕ × Entry} (ha : a ∈ l) (hc : c ∈ l) (hne : a ≠ c) :
    a.2.led_id ≠ c.2.led_id := by
  have h' : (l.map (fun p => p.2.led_id)).Nodup := h
  exact nodup_map_ne h' ha hc hne

-- LED-map frame lemmas ------------------------------------------------------

theorem set_led_frame {env : Env} {leds : ℕ → Option RGB} {led_id lid : ℕ}
    {c : RGB} (h : lid ≠ led_id) : set_led env leds led_id c lid = leds lid := by
  unfold set_led
  split_ifs <;> simp [h]

theorem set_led_self {env : Env} {leds : ℕ → Option RGB} {led_id : ℕ} {c : RGB}
    (h : env.ledOk led_id = true) : set_led env leds led_id c led_id = some c := by
  simp [set_led, h]

theorem set_color_frame {env : Env} {leds : ℕ → Option RGB} {led_id lid : ℕ}
    {st g : Option Value} {gr : Option (ℚ × ℚ)} (h : lid ≠ led_id) :
    set_color env leds led_id st g gr lid = leds lid :=
  set_led_frame h

-- Sweep lemmas --------------------------------------------------------------

theorem pyEq_self (a : Value) : pyEq a a = true := by
  simp [pyEq]

theorem check_pass_sk (env : Env) (m : Mixer) (l : List (ℕ × Entry)) :
    ∀ leds, ((check_pass env m l leds).1).map sk = l.map sk := by
  induction l with
  | nil => intro leds; rfl
  | cons hd rest ih =>
    intro leds
    obtain ⟨vk, e⟩ := hd
    obtain ⟨s, pn, v, led, ig, r⟩ := e
    by_cases hro : env.readOk s pn = true
    · by_cases hpe : pyEq (m (s, pn)) v = true
      · simp [check_pass, hro, hpe, sk, ih]
      · cases ig <;> rcases r with _ | ⟨o, en⟩ <;>
          simp [check_pass, hro, hpe, sk, ih]
    · simp [check_pass, hro]

theorem check_pass_leds_frame (env : Env) (m : Mixer) (l : List (ℕ × Entry)) :
    ∀ leds lid, (∀ p ∈ l, p.2.led_id ≠ lid) →
      (check_pass env m l leds).2.1 lid = leds lid := by
  induction l with
  | nil => intro leds lid _; rfl
  | cons hd rest ih =>
    intro leds lid hne
    obtain ⟨vk, e⟩ := hd
    obtain ⟨s, pn, v, led, ig, r⟩ := e
    have hhd : led ≠ lid := hne _ (List.mem_cons_self _ _)
    have hrest : ∀ p ∈ rest, p.2.led_id ≠ lid :=
      fun p hp => hne p (List.mem_cons_of_mem _ hp)
    by_cases hro : env.readOk s pn = true
    · by_cases hpe : pyEq (m (s, pn)) v = true
      · simp [check_pass, hro, hpe, ih _ _ hrest]
      · cases ig <;> rcases r with _ | ⟨o, en⟩ <;>
          simp [check_pass, hro, hpe, ih _ _ hrest,
            set_color_frame (Ne.symm hhd)]
    · simp [check_pass, hro]

theorem init_pass_frame (env : Env) (l : List (ℕ × Entry)) :
    ∀ leds lid, (∀ p ∈ l, p.2.led_id ≠ lid) →
      init_pass env l leds lid = leds lid := by
  induction l with
  | nil => intro leds lid _; rfl
  | cons hd rest ih =>
    intro leds lid hne
    obtain ⟨vk, e⟩ := hd
    obtain ⟨s, pn, v, led, ig, r⟩ := e
    have hhd : led ≠ lid := hne _ (List.mem_cons_self _ _)
    have hrest : ∀ p ∈ rest, p.2.led_id ≠ lid :=
      fun p hp => hne p (List.mem_cons_of_mem _ hp)
    cases ig <;> rcases r with _ | ⟨o, en⟩ <;>
      simp [init_pass, ih _ _ hrest, set_color_frame (Ne.symm hhd)]

theorem init_pass_inv (env : Env) (hled : LedAllOk env)
    (l : List (ℕ × Entry)) :
    ∀ leds, l.Pairwise (fun p q => p.2.led_id ≠ q.2.led_id) →
      ∀ p ∈ l, init_pass env l leds p.2.led_id = some (entryColor p.2) := by
  induction l with
  | nil => intro leds _ p hp; cases hp
  | cons hd rest ih =>
    intro leds hpw p hp
    obtain ⟨hpw1, hpw2⟩ := List.pairwise_cons.mp hpw
    obtain ⟨vk, e⟩ := hd
    obtain ⟨s, pn, v, led, ig, r⟩ := e
    rcases List.mem_cons.mp hp with hp1 | hp1
    · subst hp1
      have hfr : ∀ q ∈ rest, q.2.led_id ≠ led :=
        fun q hq => Ne.symm (hpw1 q hq)
      cases ig <;> rcases r with _ | ⟨o, en⟩ <;>
        (simp only [init_pass]
         rw [init_pass_frame env rest _ led hfr]
         simp [set_color, set_led_self (hled led), entryColor])
    · have hgoal : ∀ leds1, init_pass env rest leds1 p.2.led_id =
          some (entryColor p.2) :=
        fun leds1 => ih leds1 hpw2 p hp1
      cases ig <;> rcases r with _ | ⟨o, en⟩ <;>
        simp [init_pass, hgoal]

theorem check_pass_inv (env : Env) (hled : LedAllOk env) (m : Mixer)
    (l : List (ℕ × Entry)) :
    ∀ leds, l.Pairwise (fun p q => p.2.led_id ≠ q.2.led_id) →
      (∀ p ∈ l, leds p.2.led_id = some (entryColor p.2)) →
      ∀ p ∈ (check_pass env m l leds).1,
        (check_pass env m l leds).2.1 p.2.led_id = some (entryColor p.2) := by
  induction l with
  | nil => intro leds _ _ p hp; cases hp
  | cons hd rest ih =>
    intro leds hpw hinv p hp
    obtain ⟨hpw1, hpw2⟩ := List.pairwise_cons.mp hpw
    obtain ⟨vk, e⟩ := hd
    obtain ⟨s, pn, v, led, ig, r⟩ := e
    have hfr : ∀ q ∈ rest, q.2.led_id ≠ led :=
      fun q hq => Ne.symm (hpw1 q hq)
    have hinv_rest : ∀ q ∈ rest, leds q.2.led_id = some (entryColor q.2) :=
      fun q hq => hinv q (List.mem_cons_of_mem _ hq)
    by_cases hro : env.readOk s pn = true
    · by_cases hpe : pyEq (m (s, pn)) v = true
      · simp only [check_pass, hro, if_true, hpe, if_pos] at hp ⊢
        rcases List.mem_cons.mp hp with hp1 | hp1
        · subst hp1
          rw [check_pass_leds_frame env m rest leds led hfr]
          exact hinv _ (List.mem_cons_self _ _)
        · exact ih leds hpw2 hinv_rest p hp1
      · cases ig <;> rcases r with _ | ⟨o, en⟩ <;>
          (simp only [check_pass, hro, if_true, hpe, if_false, Bool.false_eq_true,
            if_neg, if_pos] at hp ⊢
           rcases List.mem_cons.mp hp with hp1 | hp1
           · subst hp1
             rw [check_pass_leds_frame env m rest _ led hfr]
             simp [set_color, set_led_self (hled led), entryColor]
           · refine ih _ hpw2 (fun q hq => ?_) p hp1
             rw [set_color_frame (hfr q hq)]
             exact hinv_rest q hq)
    · have hres : check_pass env m
          ((vk, ⟨s, pn, v, led, ig, r⟩) :: rest) leds =
          ((vk, ⟨s, pn, v, led, ig, r⟩) :: rest, leds, false) := by
        simp [check_pass, hro]
      rw [hres] at hp ⊢
      exact hinv p hp

theorem check_pass_complete (env : Env) (m : Mixer) (hread : ReadAllOk env)
    (l : List (ℕ × Entry)) :
    ∀ leds, (check_pass env m l leds).2.2 = true ∧
      ∀ p ∈ (check_pass env m l leds).1,
        pyEq (m (p.2.s_idx, p.2.p_name)) p.2.value = true := by
  induction l with
  | nil => intro leds; exact ⟨rfl, fun p hp => absurd hp (List.not_mem_nil p)⟩
  | cons hd rest ih =>
    intro leds
    obtain ⟨vk, e⟩ := hd
    obtain ⟨s, pn, v, led, ig, r⟩ := e
    have hro : env.readOk s pn = true := hread s pn
    by_cases hpe : pyEq (m (s, pn)) v = true
    · refine ⟨?_, ?_⟩
      · simpa [check_pass, hro, hpe] using (ih leds).1
      · intro p hp
        simp only [check_pass, hro, if_true, hpe, if_pos] at hp
        rcases List.mem_cons.mp hp with hp1 | hp1
        · subst hp1; exact hpe
        · exact (ih leds).2 p hp1
    · cases ig <;> rcases r with _ | ⟨o, en⟩ <;>
        (refine ⟨?_, ?_⟩
         · simp only [check_pass, hro, if_true, hpe, if_false, Bool.false_eq_true,
             if_neg, if_pos]
           exact (ih _).1
         · intro p hp
           simp only [check_pass, hro, if_true, hpe, if_false, Bool.false_eq_true,
             if_neg, if_pos] at hp
           rcases List.mem_cons.mp hp with hp1 | hp1
           · subst hp1; exact pyEq_self _
           · exact (ih _).2 p hp1)

-- Toggle lemmas -------------------------------------------------------------

theorem toggle_sk (env : Env) (vk : ℕ) (w : World) :
    ((toggle_strip env vk w).1.params).map sk = w.params.map sk := by
  cases hfind : findEntry vk w.params with
  | none => simp [toggle_strip, hfind]
  | some e =>
    obtain ⟨s, pn, v, led, ig, r⟩ := e
    cases ig <;> rcases r with _ | ⟨o, en⟩ <;>
      by_cases hw : env.writeOk s pn = true <;>
      simp [toggle_strip, hfind, hw, sk_setValue]

theorem nodup_keys_of_sk {l l' : List (ℕ × Entry)}
    (h : l'.map sk = l.map sk) (hk : (keysOf l).Nodup) :
    (keysOf l').Nodup := by
  rw [keysOf_eq_sk, h, ← keysOf_eq_sk]
  exact hk

theorem nodup_leds_of_sk {l l' : List (ℕ × Entry)}
    (h : l'.map sk = l.map sk) (hk : (ledsOf l).Nodup) :
    (ledsOf l').Nodup := by
  rw [ledsOf_eq_sk, h, ← ledsOf_eq_sk]
  exact hk

theorem WF_toggle (env : Env) (vk : ℕ) (w : World) (h : WF w) :
    WF (toggle_strip env vk w).1 :=
  ⟨nodup_keys_of_sk (toggle_sk env vk w) h.1,
   nodup_leds_of_sk (toggle_sk env vk w) h.2⟩

theorem WF_check (env : Env) (w : World) (h : WF w) :
    WF (check_updates env w).1 :=
  ⟨nodup_keys_of_sk (check_pass_sk env w.mixer w.params w.leds) h.1,
   nodup_leds_of_sk (check_pass_sk env w.mixer w.params w.leds) h.2⟩

theorem ledsDistinct_of_nodup {l : List (ℕ × Entry)} (h : (ledsOf l).Nodup) :
    l.Pairwise (fun p q => p.2.led_id ≠ q.2.led_id) := by
  have h' : (l.map (fun p => p.2.led_id)).Nodup := h
  rw [List.Nodup, List.pairwise_map] at h'
  exact h'

/-- A toggle that successfully wrote the mixer rebuilds the LED map so that
the updated entry shows its new color and every other entry is untouched. -/
theorem LedInv_push (w : World) (hwf : WF w) (hinv : LedInv w)
    (vk : ℕ) (e : Entry) (hmem : (vk, e) ∈ w.params)
    (nv : Value) (leds' : ℕ → Option RGB) (mixer' : Mixer)
    (hself : leds' e.led_id = some (entryColor { e with value := nv }))
    (hframe : ∀ lid, lid ≠ e.led_id → leds' lid = w.leds lid) :
    LedInv { mixer := mixer', leds := leds',
             params := setValue vk nv w.params } := by
  intro p' hp'
  dsimp only at hp' ⊢
  obtain ⟨p, hp, hfp⟩ := List.mem_map.mp hp'
  by_cases hpk : p.1 = vk
  · have hpe : p = (vk, e) := key_unique hwf.1 hmem hp hpk
    subst hpe
    rw [if_pos hpk] at hfp
    rw [← hfp]
    exact hself
  · rw [if_neg hpk] at hfp
    subst hfp
    have hpne : p ≠ (vk, e) := fun hc => hpk (by rw [hc])
    have hledne : p.2.led_id ≠ e.led_id :=
      led_ne_of_nodup hwf.2 hp hmem hpne
    rw [hframe _ hledne]
    exact hinv p hp

theorem LedInv_toggle (env : Env) (vk : ℕ) (w : World) (hled : LedAllOk env)
    (hwf : WF w) (hinv : LedInv w) : LedInv (toggle_strip env vk w).1 := by
  cases hfind : findEntry vk w.params with
  | none =>
    rw [show (toggle_strip env vk w).1 = w from by simp [toggle_strip, hfind]]
    exact hinv
  | some e =>
    have hmem : (vk, e) ∈ w.params := findEntry_mem hfind
    obtain ⟨s, pn, v, led, ig, r⟩ := e
    by_cases hw : env.writeOk s pn = true
    · cases ig
      · rcases r with _ | ⟨o, en⟩ <;>
          (rw [show (toggle_strip env vk w).1 =
              { mixer := fun loc =>
                  if loc = (s, pn) then Value.b (!(truthy v)) else w.mixer loc,
                leds := set_color env w.leds led
                  (some (Value.b (!(truthy v)))) none none,
                params := setValue vk (Value.b (!(truthy v))) w.params } from by
              simp [toggle_strip, hfind, hw]]
           exact LedInv_push w hwf hinv vk _ hmem _ _ _
             (by simp [set_color, set_led_self (hled led), entryColor, truthy])
             (fun lid hlid => set_color_frame hlid))
      · rcases r with _ | ⟨o, en⟩
        · rw [show (toggle_strip env vk w).1 =
              { mixer := fun loc =>
                  if loc = (s, pn) then Value.b (!(truthy v)) else w.mixer loc,
                leds := set_color env w.leds led
                  (some (Value.b (!(truthy v)))) none none,
                params := setValue vk (Value.b (!(truthy v))) w.params } from by
              simp [toggle_strip, hfind, hw]]
          exact LedInv_push w hwf hinv vk _ hmem _ _ _
            (by simp [set_color, set_led_self (hled led), entryColor, truthy])
            (fun lid hlid => set_color_frame hlid)
        · rw [show (toggle_strip env vk w).1 =
              { mixer := fun loc =>
                  if loc = (s, pn) then
                    Value.n (if v.toRat = en then o else en)
                  else w.mixer loc,
                leds := set_color env w.leds led none
                  (some (Value.n (if v.toRat = en then o else en)))
                  (some (o, en)),
                params := setValue vk (Value.n (if v.toRat = en then o else en))
                  w.params } from by simp [toggle_strip, hfind, hw]]
          exact LedInv_push w hwf hinv vk _ hmem _ _ _
            (by simp [set_color, set_led_self (hled led), entryColor,
              Value.toRat])
            (fun lid hlid => set_color_frame hlid)
    · cases ig <;> rcases r with _ | ⟨o, en⟩ <;>
        (rw [show (toggle_strip env vk w).1 = w from by
          simp [toggle_strip, hfind, hw]]
         exact hinv)

theorem LedInv_check (env : Env) (w : World) (hled : LedAllOk env)
    (hwf : WF w) (hinv : LedInv w) : LedInv (check_updates env w).1 := by
  intro p hp
  simp only [check_updates] at hp ⊢
  exact check_pass_inv env hled w.mixer w.params w.leds
    (ledsDistinct_of_nodup hwf.2) hinv p hp

theorem params_initWorld (env : Env) (m : Mixer) :
    (initWorld env m).params = init_params m := rfl

theorem keysOf_init_params (m : Mixer) :
    keysOf (init_params m) = [97, 98, 99, 100, 101, 102, 104, 103, 105] := rfl

theorem ledsOf_init_params (m : Mixer) :
    ledsOf (init_params m) =
      [116, 117, 118, 113, 114, 115, 110, 109, 111] := rfl

theorem WF_initWorld (env : Env) (m : Mixer) : WF (initWorld env m) := by
  constructor
  · show (keysOf (init_params m)).Nodup
    rw [keysOf_init_params]
    decide
  · show (ledsOf (init_params m)).Nodup
    rw [ledsOf_init_params]
    decide

theorem LedInv_initWorld (env : Env) (m : Mixer) (hled : LedAllOk env) :
    LedInv (initWorld env m) := by
  intro p hp
  have hn : (ledsOf (init_params m)).Nodup := by
    rw [ledsOf_init_params]
    decide
  exact init_pass_inv env hled (init_params m) (fun _ => none)
    (ledsDistinct_of_nodup hn) p hp

theorem step_WF (op : Op) (w : World) (h : WF w) : WF (step op w) := by
  cases op with
  | toggle env vk => exact WF_toggle env vk w h
  | reconcile env => exact WF_check env w h
  | external f => exact h

theorem step_LedInv (op : Op) (w : World) (hop : OpLedOk op) (hwf : WF w)
    (hinv : LedInv w) : LedInv (step op w) := by
  cases op with
  | toggle env vk => exact LedInv_toggle env vk w hop hwf hinv
  | reconcile env => exact LedInv_check env w hop hwf hinv
  | external f => exact fun p hp => hinv p hp

theorem run_LedInv (ops : List Op) :
    ∀ w, WF w → LedInv w → (∀ op ∈ ops, OpLedOk op) →
      WF (run ops w) ∧ LedInv (run ops w) := by
  induction ops with
  | nil => exact fun w hwf hinv _ => ⟨hwf, hinv⟩
  | cons op rest ih =>
    intro w hwf hinv hops
    have hop : OpLedOk op := hops op (List.mem_cons_self _ _)
    have hrest : ∀ o ∈ rest, OpLedOk o :=
      fun o ho => hops o (List.mem_cons_of_mem _ ho)
    exact ih (step op w) (step_WF op w hwf)
      (step_LedInv op w hop hwf hinv) hrest

-- C1 -----------------------------------------------------------------------

/-- C1 (amended): provided every LED write of the run succeeds, then after
`initialize_leds` and after every toggle / `check_updates` pass — even ones
whose mixer reads or writes fail, and interleaved with arbitrary out-of-band
mixer changes — every tracked entry's LED shows exactly the `ColorMapper`
color of its stored snapshot value.  (The unamended claim fails when an
`sdk.set_led_colors` call raises: see the counterexample.) -/
theorem iVoiceCue_led_inv (m : Mixer) (env0 : Env) (ops : List Op)
    (h0 : LedAllOk env0) (hops : ∀ op ∈ ops, OpLedOk op) :
    LedInv (run ops (initWorld env0 m)) :=
  (run_LedInv ops (initWorld env0 m) (WF_initWorld env0 m)
    (LedInv_initWorld env0 m h0) hops).2

theorem iVoiceCue_led_inv_witness :
    LedAllOk envAll ∧
      LedInv (run [Op.toggle envAll 97, Op.reconcile envAll]
        (initWorld envAll m0)) :=
  ⟨fun _ => rfl,
    iVoiceCue_led_inv m0 envAll [Op.toggle envAll 97, Op.reconcile envAll]
      (fun _ => rfl)
      (by
        intro op hop
        rcases List.mem_cons.mp hop with rfl | hop
        · exact fun _ => rfl
        · rcases List.mem_cons.mp hop with rfl | hop
          · exact fun _ => rfl
          · cases hop)⟩

/-- C1 counterexample: with the LED transport down (`sdk.set_led_colors`
raising, caught and logged inside `set_color`), the toggle of key 97 still
completes (`true`), stores `lastValue = True`, whose `ColorMapper` color is
`LED_ON_COLOR`, yet the LED keeps the previously pushed `LED_OFF_COLOR`
— the snapshot and the displayed color diverge at an operation boundary. -/
theorem iVoiceCue_led_inv_cex :
    (toggle_strip envNoLed 97 w0ex).2 = true ∧
    (97, (⟨0, "B1", Value.b true, 116, false, none⟩ : Entry)) ∈
      (toggle_strip envNoLed 97 w0ex).1.params ∧
    (toggle_strip envNoLed 97 w0ex).1.leds 116 = some LED_OFF_COLOR ∧
    entryColor ⟨0, "B1", Value.b true, 116, false, none⟩ = LED_ON_COLOR ∧
    ¬ LedInv (toggle_strip envNoLed 97 w0ex).1 := by
  refine ⟨rfl, List.mem_cons_self _ _, rfl, rfl, fun h => ?_⟩
  have hx := h (97, ⟨0, "B1", Value.b true, 116, false, none⟩)
    (List.mem_cons_self _ _)
  rw [show (toggle_strip envNoLed 97 w0ex).1.leds 116 = some LED_OFF_COLOR
    from rfl] at hx
  simp [entryColor, truthy, LED_ON_COLOR, LED_OFF_COLOR] at hx

-- C2 -----------------------------------------------------------------------

/-- C2 (amended): failures of the *indicator* write are caught inside
`set_color` and never prevent the rest of the sweep: whenever every mixer
read succeeds — whatever the LED transport does — `check_updates` finishes
without raising and leaves every binding's stored value in sync (Python `==`)
with the mixer.  A failing mixer read, by contrast, is not caught (see the
counterexample: it aborts the sweep and the remaining bindings are skipped). -/
theorem iVoiceCue_isolation_amended (env : Env) (w : World)
    (hread : ReadAllOk env) :
    (check_updates env w).2 = true ∧
    ∀ p ∈ (check_updates env w).1.params,
      pyEq (w.mixer (p.2.s_idx, p.2.p_name)) p.2.value = true := by
  have h := check_pass_complete env w.mixer hread w.params w.leds
  exact ⟨h.1, fun p hp => h.2 p hp⟩

theorem iVoiceCue_isolation_amended_witness :
    ReadAllOk envNoLed ∧
    ((check_updates envNoLed w1ex).2 = true ∧
      ∀ p ∈ (check_updates envNoLed w1ex).1.params,
        pyEq (w1ex.mixer (p.2.s_idx, p.2.p_name)) p.2.value = true) :=
  ⟨fun _ _ => rfl, iVoiceCue_isolation_amended envNoLed w1ex (fun _ _ => rfl)⟩

/-- C2 counterexample: after an out-of-band change of `Strip[0].B2` (key 98,
second binding of the sweep), a raising read of `Strip[0].B1` (key 97, first
binding) aborts the whole `check_updates` pass: the pass reports an escaped
exception (`false`), and binding 98 — whose external value `5.0` differs from
its snapshot `0.0` — is left unprocessed: its snapshot and its LED are
unchanged.  The mixer-read failure is neither caught nor isolated. -/
theorem iVoiceCue_isolation_cex :
    w1ex.mixer (0, "B2") = Value.n 5 ∧
    pyEq (Value.n 5) (Value.n 0) = false ∧
    (check_updates envBadRead w1ex).2 = false ∧
    findEntry 98 (check_updates envBadRead w1ex).1.params =
      some ⟨0, "B2", Value.n 0, 117, false, none⟩ ∧
    (check_updates envBadRead w1ex).1.leds 117 = w1ex.leds 117 :=
  ⟨rfl, rfl, rfl, rfl, rfl⟩

-- C3 -----------------------------------------------------------------------

/-- C3: toggling a ContinuousGain binding writes `origin` exactly when the
stored snapshot equals `end`, and `end` in every other case; hence a snapshot
that is neither endpoint snaps to `end`, a snapshot at `end` moves to
`origin`, and (for a nondegenerate pair) toggling again returns to `end`. -/
theorem iVoiceCue_gain_toggle (env : Env) (vk : ℕ) (w : World) (e : Entry)
    (origin end_ : ℚ) (hfind : findEntry vk w.params = some e)
    (hg : e.is_gain = true) (hr : e.rng = some (origin, end_))
    (hw : env.writeOk e.s_idx e.p_name = true) :
    (toggle_strip env vk w).2 = true ∧
    (toggle_strip env vk w).1.mixer (e.s_idx, e.p_name) =
      Value.n (if e.value.toRat = end_ then origin else end_) ∧
    findEntry vk (toggle_strip env vk w).1.params =
      some { e with
        value := Value.n (if e.value.toRat = end_ then origin else end_) } ∧
    (e.value.toRat ≠ end_ →
      (toggle_strip env vk w).1.mixer (e.s_idx, e.p_name) = Value.n end_) ∧
    (e.value.toRat = end_ →
      (toggle_strip env vk w).1.mixer (e.s_idx, e.p_name) = Value.n origin) ∧
    (e.value.toRat = end_ → origin ≠ end_ →
      (toggle_strip env vk (toggle_strip env vk w).1).1.mixer
        (e.s_idx, e.p_name) = Value.n end_) := by
  obtain ⟨s, pn, v, led, ig, r⟩ := e
  subst hg
  subst hr
  have hres : toggle_strip env vk w =
      ({ mixer := fun loc =>
           if loc = (s, pn) then
             Value.n (if v.toRat = end_ then origin else end_)
           else w.mixer loc,
         leds := set_color env w.leds led none
           (some (Value.n (if v.toRat = end_ then origin else end_)))
           (some (origin, end_)),
         params := setValue vk (Value.n (if v.toRat = end_ then origin else end_))
           w.params }, true) := by
    simp [toggle_strip, hfind, hw]
  refine ⟨by rw [hres], by rw [hres]; simp, ?_, ?_, ?_, ?_⟩
  · rw [hres]
    exact findEntry_setValue_self _ hfind
  · intro h2
    rw [hres]
    simp [h2]
  · intro h
    rw [hres]
    simp [h]
  · intro h hne
    have hfind1 : findEntry vk (toggle_strip env vk w).1.params =
        some ⟨s, pn, Value.n origin, led, true, some (origin, end_)⟩ := by
      rw [hres]
      have := findEntry_setValue_self
        (Value.n (if v.toRat = end_ then origin else end_)) hfind
      simpa [h] using this
    generalize hg1 : (toggle_strip env vk w).1 = w1 at hfind1 ⊢
    have hw1 : env.writeOk s pn = true := hw
    have hres2 : toggle_strip env vk w1 =
        ({ mixer := fun loc =>
             if loc = (s, pn) then
               Value.n (if (Value.n origin).toRat = end_ then origin else end_)
             else w1.mixer loc,
           leds := set_color env w1.leds led none
             (some (Value.n
               (if (Value.n origin).toRat = end_ then origin else end_)))
             (some (origin, end_)),
           params := setValue vk
             (Value.n (if (Value.n origin).toRat = end_ then origin else end_))
             w1.params }, true) := by
      simp [toggle_strip, hfind1, hw1]
    rw [hres2]
    simp [Value.toRat, hne]

theorem iVoiceCue_gain_toggle_witness :
    (toggle_strip envAll 104 w0ex).1.mixer (5, "gain") = Value.n (-30.0) := by
  have h := (iVoiceCue_gain_toggle envAll 104 w0ex
    ⟨5, "gain", Value.n 0, 110, true, some (0.0, -30.0)⟩ 0.0 (-30.0)
    rfl rfl rfl rfl).2.1
  rw [h]
  norm_num [Value.toRat]

-- C8 -----------------------------------------------------------------------

/-- A toggle of a binding that takes the boolean branch (not a gain with a
2-element range): it writes the negated truthiness, pushes the matching
boolean color, and stores the new boolean. -/
theorem toggle_bool_step (env : Env) (vk : ℕ) (w : World) (e : Entry)
    (hfind : findEntry vk w.params = some e)
    (hbr : e.is_gain = false ∨ e.rng = none)
    (hw : env.writeOk e.s_idx e.p_name = true) :
    toggle_strip env vk w =
      ({ mixer := fun loc =>
           if loc = (e.s_idx, e.p_name) then
             Value.b (!(truthy e.value))
           else w.mixer loc,
         leds := set_color env w.leds e.led_id
           (some (Value.b (!(truthy e.value)))) none none,
         params := setValue vk (Value.b (!(truthy e.value))) w.params },
       true) := by
  obtain ⟨s, pn, v, led, ig, r⟩ := e
  rcases hbr with hb | hb
  · subst hb
    simp [toggle_strip, hfind, hw]
  · subst hb
    cases ig <;> simp [toggle_strip, hfind, hw]

/-- C8: toggling a Boolean binding twice (no interference) writes the double
negation of the initial snapshot's truthiness back to the mixer, and pushes
the same indicator color the initial value had; if the LED showed the
`ColorMapper` color of the initial snapshot, it is restored exactly. -/
theorem iVoiceCue_bool_double_toggle (env : Env) (vk : ℕ) (w : World)
    (e : Entry) (hfind : findEntry vk w.params = some e)
    (hb : e.is_gain = false ∨ e.rng = none)
    (hw : env.writeOk e.s_idx e.p_name = true)
    (hl : env.ledOk e.led_id = true) :
    (toggle_strip env vk (toggle_strip env vk w).1).1.mixer
      (e.s_idx, e.p_name) = Value.b (!(!(truthy e.value))) ∧
    truthy (Value.b (!(!(truthy e.value)))) = truthy e.value ∧
    (toggle_strip env vk (toggle_strip env vk w).1).1.leds e.led_id =
      some (if truthy e.value then LED_ON_COLOR else LED_OFF_COLOR) ∧
    (w.leds e.led_id = some (entryColor e) →
      (toggle_strip env vk (toggle_strip env vk w).1).1.leds e.led_id =
        w.leds e.led_id) := by
  have h1 := toggle_bool_step env vk w e hfind hb hw
  have hfind1 : findEntry vk (toggle_strip env vk w).1.params =
      some { e with value := Value.b (!(truthy e.value)) } := by
    rw [h1]
    exact findEntry_setValue_self _ hfind
  have hb1 : ({ e with value := Value.b (!(truthy e.value)) } : Entry).is_gain
      = false ∨
      ({ e with value := Value.b (!(truthy e.value)) } : Entry).rng = none := by
    rcases hb with h | h
    · exact Or.inl h
    · exact Or.inr h
  have h2 := toggle_bool_step env vk (toggle_strip env vk w).1
    { e with value := Value.b (!(truthy e.value)) } hfind1 hb1 hw
  refine ⟨?_, ?_, ?_, ?_⟩
  · rw [h2, h1]
    simp [truthy]
  · simp [truthy, Bool.not_not]
  · rw [h2]
    simp [set_color, set_led_self hl, truthy, Bool.not_not]
  · intro hw0
    rw [h2]
    simp only [set_color, set_led_self hl, truthy, Bool.not_not]
    rw [hw0]
    obtain ⟨s, pn, v, led, ig, r⟩ := e
    rcases hb with hbb | hbb
    · subst hbb
      simp [entryColor, set_led_self hl, Bool.not_not, truthy]
    · subst hbb
      cases ig <;> simp [entryColor, set_led_self hl, Bool.not_not, truthy]

theorem iVoiceCue_bool_double_toggle_witness :
    (toggle_strip envAll 97 (toggle_strip envAll 97 w0ex).1).1.mixer
      (0, "B1") = Value.b (!(!(truthy (Value.n 0)))) :=
  (iVoiceCue_bool_double_toggle envAll 97 w0ex
    ⟨0, "B1", Value.n 0, 116, false, none⟩ rfl (Or.inl rfl) rfl rfl).1

-- C9 -----------------------------------------------------------------------

/-- C9: a toggle for a trigger that is not in `monitored_params` returns at
once: no exception, no mixer write, no LED push, no state change — the
result is exactly the unchanged world. -/
theorem iVoiceCue_unknown_trigger (env : Env) (vk : ℕ) (w : World)
    (h : findEntry vk w.params = none) : toggle_strip env vk w = (w, true) := by
  simp [toggle_strip, h]

theorem iVoiceCue_unknown_trigger_witness :
    findEntry 1 w0ex.params = none ∧ toggle_strip envAll 1 w0ex = (w0ex, true) :=
  ⟨rfl, iVoiceCue_unknown_trigger envAll 1 w0ex rfl⟩

-- C10 ----------------------------------------------------------------------

/-- C10: the key set is fixed at initialization (`initWorld` keys are exactly
the `STRIP_CONFIG` keys), toggles and `check_updates` sweeps preserve every
entry's key, strip index, parameter name, LED id, kind flag and reference
pair (`sk`), and a toggle of one trigger leaves every other trigger's entry
untouched. -/
theorem iVoiceCue_frame (env env2 : Env) (vk : ℕ) (w : World) (m : Mixer) :
    ((toggle_strip env vk w).1.params).map sk = w.params.map sk ∧
    ((check_updates env2 w).1.params).map sk = w.params.map sk ∧
    (∀ k, k ≠ vk →
      findEntry k (toggle_strip env vk w).1.params = findEntry k w.params) ∧
    keysOf (initWorld env m).params = STRIP_CONFIG.map (fun p => p.1) := by
  refine ⟨toggle_sk env vk w, ?_, ?_, rfl⟩
  · simp only [check_updates]
    exact check_pass_sk env2 w.mixer w.params w.leds
  · intro k hk
    cases hfind : findEntry vk w.params with
    | none =>
      rw [show (toggle_strip env vk w).1 = w from by simp [toggle_strip, hfind]]
    | some e =>
      obtain ⟨s, pn, v, led, ig, r⟩ := e
      cases ig <;> rcases r with _ | ⟨o, en⟩ <;>
        by_cases hw : env.writeOk s pn = true <;>
        simp [toggle_strip, hfind, hw, findEntry_setValue_ne hk]

theorem iVoiceCue_frame_witness :
    (1 : ℕ) ≠ 97 ∧
    findEntry 1 (toggle_strip envAll 97 w0ex).1.params =
      findEntry 1 w0ex.params :=
  ⟨by decide, (iVoiceCue_frame envAll envAll 97 w0ex m0).2.2.1 1 (by decide)⟩
